/-
Verification of the optimization models in `afetacao.py`, `transporte.py`
and `metas.py`: a 4×4 binary assignment problem, a 2×3 transportation
problem, a goal-programming variant, and sensitivity-sweep drivers.

The linear models (variables, constraints, objectives) are shallowly
embedded over ℚ, translated directly from the model-building code of the
three scripts.  The external LP/MIP solver invoked by `model.solve()` is
not part of the repository; where a claim speaks about the solver's
output, the solver is modelled from the spec (§4.4) as a relation that
returns a feasible optimum, `Infeasible` exactly when no assignment
satisfies the constraints, and `Unbounded` exactly when the objective is
unbounded below on the feasible region.
-/
import Mathlib

namespace Otimizacao

/-! ## General linear model (spec §3, §4.4)

A minimization model over `n` nonnegative variables: a list of linear
constraints (coefficient vector, relation, right-hand side) and a linear
objective.  All three scripts create every variable with lower bound 0
(continuous `lowBound=0` or `LpBinary`), so nonnegativity is part of
feasibility. -/

/-- Relational operator of a constraint: `≤`, `=` or `≥`. -/
inductive Rel where
  | le : Rel
  | eq : Rel
  | ge : Rel
deriving DecidableEq

/-- A linear constraint over `n` variables. -/
structure LinConstr (n : ℕ) where
  coeffs : Fin n → ℚ
  rel : Rel
  rhs : ℚ

/-- A minimization model: constraints plus linear objective, all
variables nonnegative (every `LpVariable` in the scripts has lower
bound 0). -/
structure LpModel (n : ℕ) where
  constraints : List (LinConstr n)
  objective : Fin n → ℚ

/-- Whether the point `x` satisfies one constraint. -/
def LinConstr.holds {n : ℕ} (c : LinConstr n) (x : Fin n → ℚ) : Prop :=
  match c.rel with
  | Rel.le => (∑ i, c.coeffs i * x i) ≤ c.rhs
  | Rel.eq => (∑ i, c.coeffs i * x i) = c.rhs
  | Rel.ge => c.rhs ≤ (∑ i, c.coeffs i * x i)

/-- Feasibility: nonnegativity of every variable plus every constraint. -/
def LpModel.feasible {n : ℕ} (M : LpModel n) (x : Fin n → ℚ) : Prop :=
  (∀ i, 0 ≤ x i) ∧ ∀ c ∈ M.constraints, c.holds x

/-- Objective value at a point. -/
def LpModel.objVal {n : ℕ} (M : LpModel n) (x : Fin n → ℚ) : ℚ :=
  ∑ i, M.objective i * x i

/-- A feasible point that minimizes the objective. -/
def LpModel.optimalPoint {n : ℕ} (M : LpModel n) (x : Fin n → ℚ) : Prop :=
  M.feasible x ∧ ∀ y, M.feasible y → M.objVal x ≤ M.objVal y

/-- The objective can be pushed below every bound inside the feasible
region. -/
def LpModel.unboundedBelow {n : ℕ} (M : LpModel n) : Prop :=
  ∀ B : ℚ, ∃ x, M.feasible x ∧ M.objVal x < B

/-- Solution status, per the spec's data model. -/
inductive SolStatus where
  | Optimal : SolStatus
  | Infeasible : SolStatus
  | Unbounded : SolStatus
  | NotSolved : SolStatus
deriving DecidableEq

/-- A solver result: a status, an objective value (present only when the
status is `Optimal`) and the returned assignment. -/
structure Solution (n : ℕ) where
  status : SolStatus
  objectiveValue : Option ℚ
  assignment : Fin n → ℚ

/-- Modelled from the spec: the repository calls the external solver via
`model.solve()`, whose code is not under `src/`.  Spec §4.4 fixes its
contract: it returns `Optimal` with a feasible optimum and its objective
value, `Infeasible` exactly when no assignment satisfies all constraints,
and `Unbounded` exactly when the objective can be improved without limit;
`NotSolved` is reserved for cancellation, which the core does not use. -/
def solveRel {n : ℕ} (M : LpModel n) (s : Solution n) : Prop :=
  match s.status with
  | SolStatus.Optimal =>
      M.optimalPoint s.assignment ∧ s.objectiveValue = some (M.objVal s.assignment)
  | SolStatus.Infeasible => (¬ ∃ x, M.feasible x) ∧ s.objectiveValue = none
  | SolStatus.Unbounded => M.unboundedBelow ∧ s.objectiveValue = none
  | SolStatus.NotSolved => False

/-! ## General transportation shape (spec §8, transporte.py)

Supply rows, demand columns; `≤` supply constraints, `=` demand
constraints, all shipments nonnegative.  This is the constraint shape
built in `transporte.py` lines 29–35 (and its sensitivity copies),
abstracted over the size and the data. -/

/-- Supply/demand data of a transportation model. -/
structure TransportData (m n : ℕ) where
  oferta : Fin m → ℚ
  procura : Fin n → ℚ

/-- Transportation feasibility: nonnegative shipments, row sums at most
supply, column sums exactly demand. -/
def TransportData.feasible {m n : ℕ} (td : TransportData m n)
    (x : Fin m → Fin n → ℚ) : Prop :=
  (∀ i j, 0 ≤ x i j) ∧
  (∀ i, (∑ j, x i j) ≤ td.oferta i) ∧
  (∀ j, (∑ i, x i j) = td.procura j)

/-- Total cost of a shipment plan under cost matrix `c`. -/
def transCost {m n : ℕ} (c x : Fin m → Fin n → ℚ) : ℚ :=
  ∑ i, ∑ j, c i j * x i j

/-- Optimality for the transportation model with cost matrix `c`. -/
def TransportData.optimalPoint {m n : ℕ} (td : TransportData m n)
    (c x : Fin m → Fin n → ℚ) : Prop :=
  td.feasible x ∧ ∀ y, td.feasible y → transCost c x ≤ transCost c y

/-- Modelled from the spec: the status the external solver reports for a
transportation model, per §4.4/§7 — `Infeasible` is returned exactly when
no assignment satisfies the constraints, never an exception. -/
def TransportData.solveStatus {m n : ℕ} (td : TransportData m n)
    (st : SolStatus) : Prop :=
  match st with
  | SolStatus.Infeasible => ¬ ∃ x, td.feasible x
  | SolStatus.Optimal => ∃ c x, td.optimalPoint c x
  | SolStatus.Unbounded => ∃ c : Fin m → Fin n → ℚ,
      ∀ B : ℚ, ∃ x, td.feasible x ∧ transCost c x < B
  | SolStatus.NotSolved => False

/-! ## The concrete transportation problem (transporte.py lines 9–35)

`armazens = ["A1","A2"]`, `centros = ["CD1","CD2","CD3"]`,
`oferta = {A1:300, A2:500}`, `procura = {CD1:200, CD2:250, CD3:250}`. -/

/-- Supply and demand of `transporte.py`. -/
def transporteData : TransportData 2 3 :=
  { oferta := ![300, 500], procura := ![200, 250, 250] }

/-- Initial unit costs of `transporte.py`:
A1→(2.0, 3.5, 3.0), A2→(2.5, 2.0, 4.0). -/
def custo_inicial : Fin 2 → Fin 3 → ℚ :=
  ![![2, 7/2, 3], ![5/2, 2, 4]]

/-- The optimal shipment plan: A1→CD1 = 50, A1→CD3 = 250,
A2→CD1 = 150, A2→CD2 = 250. -/
def xStar : Fin 2 → Fin 3 → ℚ :=
  ![![50, 0, 250], ![150, 250, 0]]

lemma transporteData_oferta : transporteData.oferta = ![300, 500] := rfl

lemma transporteData_procura : transporteData.procura = ![200, 250, 250] := rfl

/-- Unfolded form of feasibility for the 2×3 model. -/
lemma transporte_feasible_iff (x : Fin 2 → Fin 3 → ℚ) :
    transporteData.feasible x ↔
      ((∀ i j, 0 ≤ x i j) ∧
       (x 0 0 + x 0 1 + x 0 2 ≤ 300 ∧ x 1 0 + x 1 1 + x 1 2 ≤ 500) ∧
       (x 0 0 + x 1 0 = 200 ∧ x 0 1 + x 1 1 = 250 ∧ x 0 2 + x 1 2 = 250)) := by
  constructor
  · rintro ⟨h0, hs, hd⟩
    refine ⟨h0, ⟨?_, ?_⟩, ?_, ?_, ?_⟩
    · have := hs 0
      simpa [transporteData, Fin.sum_univ_three] using this
    · have := hs 1
      simpa [transporteData, Fin.sum_univ_three] using this
    · have := hd 0
      simpa [transporteData, Fin.sum_univ_two] using this
    · have := hd 1
      simpa [transporteData, Fin.sum_univ_two] using this
    · have := hd 2
      simpa [transporteData, Fin.sum_univ_two] using this
  · rintro ⟨h0, ⟨hs1, hs2⟩, hd1, hd2, hd3⟩
    refine ⟨h0, ?_, ?_⟩
    · intro i
      fin_cases i <;>
        simp [transporteData, Fin.sum_univ_three] <;> linarith
    · intro j
      fin_cases j <;>
        simp [transporteData, Fin.sum_univ_two] <;> linarith

/-- Unfolded total cost for a 2×3 cost matrix. -/
lemma transCost_eq (c x : Fin 2 → Fin 3 → ℚ) :
    transCost c x =
      c 0 0 * x 0 0 + c 0 1 * x 0 1 + c 0 2 * x 0 2 +
      (c 1 0 * x 1 0 + c 1 1 * x 1 1 + c 1 2 * x 1 2) := by
  simp [transCost, Fin.sum_univ_two, Fin.sum_univ_three]

/-- `xStar` is feasible. -/
lemma xStar_feasible : transporteData.feasible xStar := by
  rw [transporte_feasible_iff]
  refine ⟨?_, by norm_num [xStar], by norm_num [xStar]⟩
  intro i j
  fin_cases i <;> fin_cases j <;> norm_num [xStar]

/-- `xStar` is optimal for the initial costs: every feasible plan costs
at least 1725 (dual certificate u = (−1/2, 0), v = (5/2, 2, 7/2)). -/
lemma xStar_optimal : transporteData.optimalPoint custo_inicial xStar := by
  refine ⟨xStar_feasible, ?_⟩
  intro y hy
  rw [transporte_feasible_iff] at hy
  obtain ⟨h0, ⟨hs1, hs2⟩, hd1, hd2, hd3⟩ := hy
  rw [transCost_eq, transCost_eq]
  have h01 := h0 0 1
  have h12 := h0 1 2
  norm_num [custo_inicial, xStar]
  linarith

/-! ## Sensitivity sweep of transporte.py (lines 76–98)

`custos_variados = np.linspace(3.0, 8.0, 11)`; each iteration copies
`custo_inicial` and overwrites the cost of route A2→CD3 (index (1,2)). -/

/-- The swept values `np.linspace(3.0, 8.0, 11) = [3.0, 3.5, …, 8.0]`. -/
def custos_variados : List ℚ :=
  (List.range 11).map (fun k => 3 + (k : ℚ) / 2)

/-- The per-iteration cost table: `custo_atual = dict(custo_inicial)`
with `custo_atual[("A2","CD3")] = cvar`. -/
def custo_atual (cvar : ℚ) : Fin 2 → Fin 3 → ℚ :=
  fun i j => if i = 1 ∧ j = 2 then cvar else custo_inicial i j

lemma custo_atual_eq (cvar : ℚ) :
    custo_atual cvar = ![![2, 7/2, 3], ![5/2, 2, cvar]] := by
  funext i j
  fin_cases i <;> fin_cases j <;> simp [custo_atual, custo_inicial]

/-- Optimal plan for the first swept value `cvar = 3`:
A1→CD1 = 200, A2→CD2 = 250, A2→CD3 = 250, total cost 1650. -/
def xSweepLo : Fin 2 → Fin 3 → ℚ :=
  ![![200, 0, 0], ![0, 250, 250]]

/-- `xSweepLo` is optimal when the A2→CD3 cost is set to 3
(dual certificate u = (0,0), v = (2, 2, 3)). -/
lemma xSweepLo_optimal : transporteData.optimalPoint (custo_atual 3) xSweepLo := by
  constructor
  · rw [transporte_feasible_iff]
    refine ⟨?_, by norm_num [xSweepLo], by norm_num [xSweepLo]⟩
    intro i j
    fin_cases i <;> fin_cases j <;> norm_num [xSweepLo]
  · intro y hy
    rw [transporte_feasible_iff] at hy
    obtain ⟨h0, ⟨hs1, hs2⟩, hd1, hd2, hd3⟩ := hy
    rw [transCost_eq, transCost_eq, custo_atual_eq]
    have h01 := h0 0 1
    have h10 := h0 1 0
    norm_num [xSweepLo]
    linarith

/-- `xStar` stays optimal when the A2→CD3 cost is set to 8: the route
A2→CD3 is unused, and the same dual certificate as for the base costs
applies (u₂ + v₃ = 7/2 ≤ 8). -/
lemma xStar_optimal_hi : transporteData.optimalPoint (custo_atual 8) xStar := by
  refine ⟨xStar_feasible, ?_⟩
  intro y hy
  rw [transporte_feasible_iff] at hy
  obtain ⟨h0, ⟨hs1, hs2⟩, hd1, hd2, hd3⟩ := hy
  rw [transCost_eq, transCost_eq, custo_atual_eq]
  have h01 := h0 0 1
  have h12 := h0 1 2
  norm_num [xStar]
  linarith

/-- The swept list written out: 3.0 to 8.0 in steps of 0.5. -/
lemma custos_variados_eq :
    custos_variados =
      [3, 7/2, 4, 9/2, 5, 11/2, 6, 13/2, 7, 15/2, 8] := by
  simp [custos_variados, List.range_succ]
  norm_num

/-- C2: for the transportation model with supply {A1:300, A2:500} and
demand {CD1:200, CD2:250, CD3:250}, every optimal plan ships at most the
supply from each warehouse, meets each center's demand exactly, and its
objective value is the sum over all routes of quantity times unit cost. -/
theorem transporte_optimal_satisfies_constraints
    (x : Fin 2 → Fin 3 → ℚ)
    (h : transporteData.optimalPoint custo_inicial x) :
    (∀ i, (∑ j, x i j) ≤ transporteData.oferta i) ∧
    (∀ j, (∑ i, x i j) = transporteData.procura j) ∧
    transCost custo_inicial x = ∑ i, ∑ j, x i j * custo_inicial i j := by
  obtain ⟨⟨h0, hs, hd⟩, _⟩ := h
  refine ⟨hs, hd, ?_⟩
  unfold transCost
  congr 1
  funext i
  congr 1
  funext j
  ring

/-- Witness for C2: the concrete plan A1→CD1=50, A1→CD3=250, A2→CD1=150,
A2→CD2=250 is optimal (cost 1725), and the theorem's conclusions hold
for it. -/
theorem transporte_optimal_satisfies_constraints_witness :
    transporteData.optimalPoint custo_inicial xStar ∧
    ((∀ i, (∑ j, xStar i j) ≤ transporteData.oferta i) ∧
     (∀ j, (∑ i, xStar i j) = transporteData.procura j) ∧
     transCost custo_inicial xStar = ∑ i, ∑ j, xStar i j * custo_inicial i j) :=
  ⟨xStar_optimal, transporte_optimal_satisfies_constraints xStar xStar_optimal⟩

/-- C3: in any minimization transportation model, raising cost
coefficients (all other data fixed) never lowers the optimal total cost;
the swept list `linspace(3.0, 8.0, 11)` is non-decreasing, so in
particular the sweep over the A2→CD3 cost yields a non-decreasing
sequence of optimal total costs. -/
theorem sweep_monotone :
    (∀ (m n : ℕ) (td : TransportData m n) (c cPr x xPr : Fin m → Fin n → ℚ),
        (∀ i j, c i j ≤ cPr i j) →
        td.optimalPoint c x → td.optimalPoint cPr xPr →
        transCost c x ≤ transCost cPr xPr) ∧
    List.Sorted (· ≤ ·) custos_variados ∧
    (∀ v vPr : ℚ, v ∈ custos_variados → vPr ∈ custos_variados → v ≤ vPr →
      ∀ x xPr : Fin 2 → Fin 3 → ℚ,
        transporteData.optimalPoint (custo_atual v) x →
        transporteData.optimalPoint (custo_atual vPr) xPr →
        transCost (custo_atual v) x ≤ transCost (custo_atual vPr) xPr) := by
  have main : ∀ (m n : ℕ) (td : TransportData m n)
      (c cPr x xPr : Fin m → Fin n → ℚ),
      (∀ i j, c i j ≤ cPr i j) →
      td.optimalPoint c x → td.optimalPoint cPr xPr →
      transCost c x ≤ transCost cPr xPr := by
    intro m n td c cPr x xPr hcc hx hxPr
    have h1 : transCost c x ≤ transCost c xPr := hx.2 xPr hxPr.1
    have h2 : transCost c xPr ≤ transCost cPr xPr := by
      unfold transCost
      apply Finset.sum_le_sum
      intro i _
      apply Finset.sum_le_sum
      intro j _
      exact mul_le_mul_of_nonneg_right (hcc i j) (hxPr.1.1 i j)
    exact le_trans h1 h2
  refine ⟨main, ?_, ?_⟩
  · rw [custos_variados_eq]
    norm_num [List.sorted_cons]
  · intro v vPr _ _ hv x xPr hx hxPr
    refine main 2 3 transporteData (custo_atual v) (custo_atual vPr) x xPr ?_ hx hxPr
    intro i j
    unfold custo_atual
    split <;> simp [hv]

/-- Witness for C3: instantiated at the sweep endpoints, the optimal cost
at A2→CD3 = 3 (namely 1650, via `xSweepLo`) is at most the optimal cost
at A2→CD3 = 8 (namely 1725, via `xStar`). -/
theorem sweep_monotone_witness :
    transCost (custo_atual 3) xSweepLo ≤ transCost (custo_atual 8) xStar :=
  sweep_monotone.2.2 3 8
    (by rw [custos_variados_eq]; norm_num)
    (by rw [custos_variados_eq]; norm_num)
    (by norm_num)
    xSweepLo xStar xSweepLo_optimal xStar_optimal_hi

/-! ## Infeasibility when demand exceeds supply (C5) -/

/-- If total demand strictly exceeds total supply, no shipment plan is
feasible: the demand equalities force the grand total to equal total
demand, while the supply inequalities cap it at total supply. -/
lemma infeasible_of_demand_gt_supply {m n : ℕ} (td : TransportData m n)
    (hlt : (∑ i, td.oferta i) < (∑ j, td.procura j)) :
    ¬ ∃ x, td.feasible x := by
  rintro ⟨x, _, hs, hd⟩
  have hdem : (∑ j, td.procura j) = ∑ i, ∑ j, x i j := by
    rw [Finset.sum_comm]
    exact Finset.sum_congr rfl (fun j _ => (hd j).symm)
  have hsup : (∑ i, ∑ j, x i j) ≤ ∑ i, td.oferta i :=
    Finset.sum_le_sum (fun i _ => hs i)
  rw [hdem] at hlt
  exact absurd hsup (not_le.mpr hlt)

/-- C5: a model whose demand-equality constraints require strictly more
than the total supply, with no surplus variable, is reported
`Infeasible` — never `Optimal` and never an exception (the modelled
solver contract returns one of the four statuses). -/
theorem demand_gt_supply_returns_infeasible
    (m n : ℕ) (td : TransportData m n)
    (hlt : (∑ i, td.oferta i) < (∑ j, td.procura j))
    (st : SolStatus) (hst : td.solveStatus st) :
    st = SolStatus.Infeasible := by
  have hinf := infeasible_of_demand_gt_supply td hlt
  cases st with
  | Infeasible => rfl
  | Optimal =>
      obtain ⟨c, x, hx⟩ := hst
      exact absurd ⟨x, hx.1⟩ hinf
  | Unbounded =>
      obtain ⟨c, hc⟩ := hst
      obtain ⟨x, hx, _⟩ := hc 0
      exact absurd ⟨x, hx⟩ hinf
  | NotSolved => exact absurd hst (by simp [TransportData.solveStatus])

/-- Witness for C5: supplies {A1:300, A2:300} (total 600) against demands
{200, 250, 250} (total 700) yield status `Infeasible`. -/
theorem demand_gt_supply_returns_infeasible_witness :
    SolStatus.Infeasible = SolStatus.Infeasible :=
  demand_gt_supply_returns_infeasible 2 3
    ⟨![300, 300], ![200, 250, 250]⟩
    (by norm_num [Fin.sum_univ_two, Fin.sum_univ_three])
    SolStatus.Infeasible
    (infeasible_of_demand_gt_supply _
      (by norm_num [Fin.sum_univ_two, Fin.sum_univ_three]))

/-! ## Determinism of the solver contract (C7) -/

/-- C7: solving is deterministic in its observable outputs.  Any two
results the modelled solver can return for the same (unmutated) model
agree on the status and on the objective value: the three terminal
statuses are mutually exclusive, and any two optimal points have equal
objective values. -/
theorem solve_deterministic (n : ℕ) (M : LpModel n) (s1 s2 : Solution n)
    (h1 : solveRel M s1) (h2 : solveRel M s2) :
    s1.status = s2.status ∧ s1.objectiveValue = s2.objectiveValue := by
  obtain ⟨st1, o1, a1⟩ := s1
  obtain ⟨st2, o2, a2⟩ := s2
  cases st1 <;> cases st2 <;> simp only [solveRel] at h1 h2 <;>
    simp only [Solution.status, Solution.objectiveValue]
  case Optimal.Optimal =>
    -- both Optimal: objective values agree by antisymmetry of optimality
    refine ⟨trivial, ?_⟩
    rw [h1.2, h2.2]
    exact congrArg some
      (le_antisymm (h1.1.2 a2 h2.1.1) (h2.1.2 a1 h1.1.1))
  case Optimal.Infeasible => exact absurd ⟨a1, h1.1.1⟩ h2.1
  case Optimal.Unbounded =>
    -- Optimal versus Unbounded is impossible
    obtain ⟨y, hy, hylt⟩ := h2.1 (M.objVal a1)
    exact absurd (h1.1.2 y hy) (not_le.mpr hylt)
  case Infeasible.Optimal => exact absurd ⟨a2, h2.1.1⟩ h1.1
  case Infeasible.Infeasible => exact ⟨trivial, by rw [h1.2, h2.2]⟩
  case Infeasible.Unbounded =>
    obtain ⟨y, hy, _⟩ := h2.1 0
    exact absurd ⟨y, hy⟩ h1.1
  case Unbounded.Optimal =>
    obtain ⟨y, hy, hylt⟩ := h1.1 (M.objVal a2)
    exact absurd (h2.1.2 y hy) (not_le.mpr hylt)
  case Unbounded.Infeasible =>
    obtain ⟨y, hy, _⟩ := h1.1 0
    exact absurd ⟨y, hy⟩ h2.1
  case Unbounded.Unbounded => exact ⟨trivial, by rw [h1.2, h2.2]⟩

/-- A degenerate one-variable model (objective 0, constraint x ≤ 5) used
to witness determinism: it has many optimal assignments, yet status and
objective value are forced. -/
def flatModel : LpModel 1 :=
  { constraints := [⟨fun _ => 1, Rel.le, 5⟩], objective := fun _ => 0 }

/-- One valid solver result for `flatModel`: the assignment 0. -/
def flatSolA : Solution 1 :=
  { status := SolStatus.Optimal, objectiveValue := some 0, assignment := fun _ => 0 }

/-- Another valid solver result for `flatModel`: the assignment 5. -/
def flatSolB : Solution 1 :=
  { status := SolStatus.Optimal, objectiveValue := some 0, assignment := fun _ => 5 }

lemma flatModel_objVal (x : Fin 1 → ℚ) : flatModel.objVal x = 0 := by
  simp [LpModel.objVal, flatModel]

lemma flatSolA_solveRel : solveRel flatModel flatSolA := by
  refine ⟨⟨⟨fun i => le_refl 0, ?_⟩, fun y _ => by rw [flatModel_objVal, flatModel_objVal]⟩, ?_⟩
  · intro c hc
    simp [flatModel] at hc
    subst hc
    simp [LinConstr.holds, flatSolA, Fin.sum_univ_one]
  · simp [flatSolA, flatModel_objVal]

lemma flatSolB_solveRel : solveRel flatModel flatSolB := by
  refine ⟨⟨⟨fun i => by norm_num [flatSolB], ?_⟩,
      fun y _ => by rw [flatModel_objVal, flatModel_objVal]⟩, ?_⟩
  · intro c hc
    simp [flatModel] at hc
    subst hc
    simp [LinConstr.holds, flatSolB, Fin.sum_univ_one]
  · simp [flatSolB, flatModel_objVal]

/-- Witness for C7: two distinct valid results for `flatModel` (with
different assignments) agree on status and objective value. -/
theorem solve_deterministic_witness :
    flatSolA.status = flatSolB.status ∧
    flatSolA.objectiveValue = flatSolB.objectiveValue :=
  solve_deterministic 1 flatModel flatSolA flatSolB
    flatSolA_solveRel flatSolB_solveRel

/-! ## The printed solution table of transporte.py (lines 43–50, C9)

The script walks all routes in order (warehouses outer, centers inner)
and appends the row `(i, j, q, custo_unit, q*custo_unit)` whenever the
solved quantity satisfies `q > 0`. -/

/-- A row of "Tabela 1". -/
structure TabelaRow where
  armazem : Fin 2
  centro : Fin 3
  qtd : ℚ
  custoUnit : ℚ
  custoTotal : ℚ
deriving DecidableEq

/-- The iteration order of the extraction loop. -/
def rotas : List (Fin 2 × Fin 3) :=
  [(0, 0), (0, 1), (0, 2), (1, 0), (1, 1), (1, 2)]

/-- The extraction loop: keep the routes with `q > 0`. -/
def solucao (x : Fin 2 → Fin 3 → ℚ) : List TabelaRow :=
  rotas.filterMap (fun p =>
    if 0 < x p.1 p.2 then
      some ⟨p.1, p.2, x p.1 p.2, custo_inicial p.1 p.2,
            x p.1 p.2 * custo_inicial p.1 p.2⟩
    else none)

/-- The row totals of the filtered table equal the sum of per-route
`ite` terms, by induction over the route list. -/
lemma solucao_sum_aux (x : Fin 2 → Fin 3 → ℚ) (l : List (Fin 2 × Fin 3)) :
    ((l.filterMap (fun p =>
        if 0 < x p.1 p.2 then
          some (⟨p.1, p.2, x p.1 p.2, custo_inicial p.1 p.2,
                 x p.1 p.2 * custo_inicial p.1 p.2⟩ : TabelaRow)
        else none)).map TabelaRow.custoTotal).sum
      = (l.map (fun p =>
          if 0 < x p.1 p.2 then x p.1 p.2 * custo_inicial p.1 p.2 else 0)).sum := by
  induction l with
  | nil => rfl
  | cons p t ih =>
      by_cases hp : 0 < x p.1 p.2
      · simp only [List.filterMap_cons, if_pos hp, List.map_cons, List.sum_cons, ih]
      · simp only [List.filterMap_cons, if_neg hp, List.map_cons, List.sum_cons, ih,
          zero_add]

/-- C9: for a nonnegative assignment, the report table contains exactly
the routes with strictly positive quantity, each row's total is its
quantity times its unit cost, and the row totals sum to the model's
objective value — omitting zero-quantity routes loses nothing. -/
theorem tabela_solucao_correct (x : Fin 2 → Fin 3 → ℚ)
    (h0 : ∀ i j, 0 ≤ x i j) :
    (∀ i j, (∃ r ∈ solucao x, r.armazem = i ∧ r.centro = j) ↔ 0 < x i j) ∧
    (∀ r ∈ solucao x, r.custoTotal = r.qtd * r.custoUnit) ∧
    ((solucao x).map TabelaRow.custoTotal).sum = transCost custo_inicial x := by
  refine ⟨?_, ?_, ?_⟩
  · intro i j
    constructor
    · rintro ⟨r, hr, hri, hrj⟩
      rw [solucao, List.mem_filterMap] at hr
      obtain ⟨p, _, hp⟩ := hr
      by_cases hpos : 0 < x p.1 p.2
      · rw [if_pos hpos] at hp
        obtain rfl := Option.some_injective _ hp
        rw [← hri, ← hrj]
        exact hpos
      · rw [if_neg hpos] at hp
        exact absurd hp (Option.noConfusion)
    · intro hpos
      refine ⟨⟨i, j, x i j, custo_inicial i j, x i j * custo_inicial i j⟩,
        ?_, rfl, rfl⟩
      rw [solucao, List.mem_filterMap]
      refine ⟨(i, j), ?_, by rw [if_pos hpos]⟩
      fin_cases i <;> fin_cases j <;> simp [rotas]
  · intro r hr
    rw [solucao, List.mem_filterMap] at hr
    obtain ⟨p, _, hp⟩ := hr
    by_cases hpos : 0 < x p.1 p.2
    · rw [if_pos hpos] at hp
      obtain rfl := Option.some_injective _ hp
      rfl
    · rw [if_neg hpos] at hp
      exact absurd hp (Option.noConfusion)
  · rw [transCost_eq, solucao, solucao_sum_aux]
    have hterm : ∀ i j, (if 0 < x i j then x i j * custo_inicial i j else 0)
        = x i j * custo_inicial i j := by
      intro i j
      by_cases hp : 0 < x i j
      · rw [if_pos hp]
      · have hz : x i j = 0 := le_antisymm (not_lt.mp hp) (h0 i j)
        rw [if_neg hp, hz, zero_mul]
    simp only [rotas, List.map_cons, List.map_nil, List.sum_cons, List.sum_nil, hterm]
    norm_num [custo_inicial]
    ring

/-- Witness for C9: the table extracted from the optimal plan `xStar`
keeps exactly its four positive routes and its totals sum to 1725. -/
theorem tabela_solucao_correct_witness :
    (∀ i j, (∃ r ∈ solucao xStar, r.armazem = i ∧ r.centro = j) ↔ 0 < xStar i j) ∧
    (∀ r ∈ solucao xStar, r.custoTotal = r.qtd * r.custoUnit) ∧
    ((solucao xStar).map TabelaRow.custoTotal).sum = transCost custo_inicial xStar :=
  tabela_solucao_correct xStar
    (fun i j => by fin_cases i <;> fin_cases j <;> norm_num [xStar])

/-! ## The assignment problem (afetacao.py lines 9–35, C1)

Workers `F1..F4` are rows `Fin 4`, tasks
`[Lavagem, Transporte, Engarrafamento, Controlo]` are columns `Fin 4`.
The variables are `LpBinary`, each worker does exactly one task, each
task gets exactly one worker. -/

/-- Cost matrix of `afetacao.py` (`custo_inicial` there): row = worker,
column = task. -/
def custoAfetacao : Fin 4 → Fin 4 → ℕ :=
  ![![25, 40, 30, 35], ![35, 30, 25, 45], ![20, 35, 40, 30], ![30, 25, 35, 20]]

/-- Feasibility of the assignment model: binary variables, each row and
each column sums to 1. -/
def assignFeasible (x : Fin 4 → Fin 4 → ℚ) : Prop :=
  (∀ i j, x i j = 0 ∨ x i j = 1) ∧
  (∀ i, (∑ j, x i j) = 1) ∧
  (∀ j, (∑ i, x i j) = 1)

/-- The objective `CustoTotal` of the assignment model. -/
def assignCost (x : Fin 4 → Fin 4 → ℚ) : ℚ :=
  ∑ i, ∑ j, (custoAfetacao i j : ℚ) * x i j

/-- Optimality for the assignment model. -/
def assignOptimal (x : Fin 4 → Fin 4 → ℚ) : Prop :=
  assignFeasible x ∧ ∀ y, assignFeasible y → assignCost x ≤ assignCost y

/-- Cost of the assignment sending task `j` to worker `w j`. -/
def permCost (w : Fin 4 → Fin 4) : ℕ := ∑ j, custoAfetacao (w j) j

/-- The 0/1 matrix of the assignment `w` (task `j` done by worker `w j`). -/
def indicator (w : Fin 4 → Fin 4) : Fin 4 → Fin 4 → ℚ :=
  fun i j => if i = w j then 1 else 0

/-- The optimal assignment: Lavagem→F3, Transporte→F2,
Engarrafamento→F1, Controlo→F4. -/
def wOpt : Fin 4 → Fin 4 := ![2, 1, 0, 3]

/-- Four binary rationals summing to 1: exactly one of them is 1. -/
lemma binary_sum_four {a b c d : ℚ}
    (ha : a = 0 ∨ a = 1) (hb : b = 0 ∨ b = 1)
    (hc : c = 0 ∨ c = 1) (hd : d = 0 ∨ d = 1)
    (h : a + b + c + d = 1) :
    (a = 1 ∧ b = 0 ∧ c = 0 ∧ d = 0) ∨ (a = 0 ∧ b = 1 ∧ c = 0 ∧ d = 0) ∨
    (a = 0 ∧ b = 0 ∧ c = 1 ∧ d = 0) ∨ (a = 0 ∧ b = 0 ∧ c = 0 ∧ d = 1) := by
  rcases ha with rfl | rfl <;> rcases hb with rfl | rfl <;>
    rcases hc with rfl | rfl <;> rcases hd with rfl | rfl <;> norm_num at h ⊢

/-- In a feasible assignment, every column holds exactly one 1. -/
lemma col_exists_unique (x : Fin 4 → Fin 4 → ℚ) (hx : assignFeasible x)
    (j : Fin 4) : ∃ i, x i j = 1 ∧ ∀ b, x b j = 1 → b = i := by
  obtain ⟨hb, _, hcol⟩ := hx
  have h := hcol j
  rw [Fin.sum_univ_four] at h
  rcases binary_sum_four (hb 0 j) (hb 1 j) (hb 2 j) (hb 3 j) h with
    ⟨h1, h2, h3, h4⟩ | ⟨h1, h2, h3, h4⟩ | ⟨h1, h2, h3, h4⟩ | ⟨h1, h2, h3, h4⟩
  · exact ⟨0, h1, fun b hbj => by fin_cases b <;> simp_all⟩
  · exact ⟨1, h2, fun b hbj => by fin_cases b <;> simp_all⟩
  · exact ⟨2, h3, fun b hbj => by fin_cases b <;> simp_all⟩
  · exact ⟨3, h4, fun b hbj => by fin_cases b <;> simp_all⟩

/-- In a feasible assignment, every row holds exactly one 1. -/
lemma row_exists_unique (x : Fin 4 → Fin 4 → ℚ) (hx : assignFeasible x)
    (i : Fin 4) : ∃ t, x i t = 1 ∧ ∀ s, x i s = 1 → s = t := by
  obtain ⟨hb, hrow, _⟩ := hx
  have h := hrow i
  rw [Fin.sum_univ_four] at h
  rcases binary_sum_four (hb i 0) (hb i 1) (hb i 2) (hb i 3) h with
    ⟨h1, h2, h3, h4⟩ | ⟨h1, h2, h3, h4⟩ | ⟨h1, h2, h3, h4⟩ | ⟨h1, h2, h3, h4⟩
  · exact ⟨0, h1, fun s hs => by fin_cases s <;> simp_all⟩
  · exact ⟨1, h2, fun s hs => by fin_cases s <;> simp_all⟩
  · exact ⟨2, h3, fun s hs => by fin_cases s <;> simp_all⟩
  · exact ⟨3, h4, fun s hs => by fin_cases s <;> simp_all⟩

/-- A feasible assignment is the indicator matrix of a bijection from
tasks to workers. -/
lemma assignFeasible_rep (x : Fin 4 → Fin 4 → ℚ) (hx : assignFeasible x) :
    ∃ w : Fin 4 → Fin 4, Function.Bijective w ∧ x = indicator w := by
  choose w hw1 hw2 using col_exists_unique x hx
  have hinj : Function.Injective w := by
    intro j j' hjj
    obtain ⟨t, _, ht2⟩ := row_exists_unique x hx (w j)
    have e1 : j = t := ht2 j (hw1 j)
    have e2 : j' = t := ht2 j' (by rw [hjj]; exact hw1 j')
    rw [e1, e2]
  refine ⟨w, Finite.injective_iff_bijective.mp hinj, ?_⟩
  funext i j
  unfold indicator
  by_cases hij : i = w j
  · rw [if_pos hij, hij]; exact hw1 j
  · rw [if_neg hij]
    rcases hx.1 i j with h0 | h1
    · exact h0
    · exact absurd (hw2 j i h1) hij

/-- The indicator matrix of a bijection is feasible. -/
lemma indicator_feasible (w : Fin 4 → Fin 4) (hw : Function.Bijective w) :
    assignFeasible (indicator w) := by
  refine ⟨?_, ?_, ?_⟩
  · intro i j
    unfold indicator
    by_cases hij : i = w j
    · right; rw [if_pos hij]
    · left; rw [if_neg hij]
  · intro i
    obtain ⟨j0, hj0⟩ := hw.2 i
    rw [Finset.sum_eq_single j0]
    · rw [indicator, if_pos hj0.symm]
    · intro b _ hbne
      rw [indicator, if_neg]
      intro hb
      exact hbne (hw.1 (hj0.trans hb)).symm
    · intro h
      exact absurd (Finset.mem_univ j0) h
  · intro j
    simp [indicator]

/-- The objective value of an indicator matrix is the assignment cost of
its bijection. -/
lemma assignCost_indicator (w : Fin 4 → Fin 4) :
    assignCost (indicator w) = (permCost w : ℚ) := by
  unfold assignCost indicator permCost
  rw [Finset.sum_comm]
  push_cast
  apply Finset.sum_congr rfl
  intro j _
  simp [mul_ite]

set_option maxHeartbeats 1000000 in
set_option maxRecDepth 10000 in
/-- Exhaustive check: every bijective assignment costs at least 100. -/
lemma perm_lower_bound :
    ∀ w : Fin 4 → Fin 4, Function.Bijective w → 100 ≤ permCost w := by decide

set_option maxHeartbeats 1000000 in
set_option maxRecDepth 10000 in
/-- Exhaustive check: `wOpt` is the only bijective assignment of cost
100. -/
lemma perm_unique_min :
    ∀ w : Fin 4 → Fin 4, Function.Bijective w → permCost w = 100 →
      ∀ j, w j = wOpt j := by decide

/-- `wOpt` is a bijection of cost exactly 100. -/
lemma wOpt_spec : Function.Bijective wOpt ∧ permCost wOpt = 100 := by decide

/-- Every feasible assignment costs at least 100. -/
lemma assignCost_lower_bound (y : Fin 4 → Fin 4 → ℚ)
    (hy : assignFeasible y) : (100 : ℚ) ≤ assignCost y := by
  obtain ⟨w, hbij, hyw⟩ := assignFeasible_rep y hy
  rw [hyw, assignCost_indicator]
  exact_mod_cast perm_lower_bound w hbij

/-- The cost of the indicator of `wOpt` is 100. -/
lemma wOpt_cost : assignCost (indicator wOpt) = 100 := by
  rw [assignCost_indicator, wOpt_spec.2]
  norm_num

/-- The indicator of `wOpt` is an optimal assignment. -/
lemma wOpt_optimal : assignOptimal (indicator wOpt) :=
  ⟨indicator_feasible wOpt wOpt_spec.1,
   fun y hy => by rw [wOpt_cost]; exact assignCost_lower_bound y hy⟩

/-- C1: for the 4×4 binary assignment model of `afetacao.py`, every
optimal solution has total cost exactly 100, and the optimum is unique:
there is exactly one optimal assignment. -/
theorem afetacao_unique_optimum_100 :
    (∀ x, assignOptimal x → assignCost x = 100) ∧ (∃! x, assignOptimal x) := by
  have hcost : ∀ x, assignOptimal x → assignCost x = 100 := by
    intro x hx
    have h1 : assignCost x ≤ 100 := by
      have h := hx.2 (indicator wOpt) (indicator_feasible wOpt wOpt_spec.1)
      rwa [wOpt_cost] at h
    exact le_antisymm h1 (assignCost_lower_bound x hx.1)
  refine ⟨hcost, indicator wOpt, wOpt_optimal, ?_⟩
  intro y hy
  obtain ⟨w, hbij, hyw⟩ := assignFeasible_rep y hy.1
  have h100 : permCost w = 100 := by
    have h := hcost y hy
    rw [hyw, assignCost_indicator] at h
    exact_mod_cast h
  have hww := perm_unique_min w hbij h100
  rw [hyw]
  funext i j
  unfold indicator
  rw [hww j]

/-- Witness for C1: the indicator of `wOpt` is optimal and the theorem
evaluates its cost to 100. -/
theorem afetacao_unique_optimum_100_witness :
    assignOptimal (indicator wOpt) ∧ assignCost (indicator wOpt) = 100 :=
  ⟨wOpt_optimal, afetacao_unique_optimum_100.1 (indicator wOpt) wOpt_optimal⟩

/-! ## The extraction loop of afetacao.py (lines 42–47, C8)

The script scans all (worker, task) pairs and records
`alocacao[j] = (i, custo_inicial[(i,j)])` whenever `value(x[(i,j)]) == 1`
— an exact equality test, no epsilon.  In a feasible 0/1 solution each
task has exactly one matching worker, so the scan order is immaterial. -/

/-- The worker recorded for task `j`: the worker whose variable solved to
exactly 1 (exact equality, as in the script). -/
def alocFunc (x : Fin 4 → Fin 4 → ℚ) (j : Fin 4) : Option (Fin 4) :=
  (List.finRange 4).find? (fun i => decide (x i j = 1))

/-- `find?` over all of `Fin 4` returns the unique satisfying element. -/
lemma find?_unique {p : Fin 4 → Bool} (a : Fin 4) (hpa : p a = true)
    (huniq : ∀ b, p b = true → b = a) :
    (List.finRange 4).find? p = some a := by
  have hp : ∀ b, p b = decide (b = a) := by
    intro b
    by_cases hb : b = a
    · subst hb; simp [hpa]
    · have hfalse : p b = false := by
        cases hpb : p b with
        | false => rfl
        | true => exact absurd (huniq b hpb) hb
      simp [hfalse, hb]
  have heq : (List.finRange 4).find? p
      = (List.finRange 4).find? (fun b => decide (b = a)) := by
    congr 1
    funext b
    exact hp b
  rw [heq]
  fin_cases a <;> rfl

/-- C8: for any feasible 0/1 solution, the extraction loop with its
exact-equality test yields a mapping in which every task appears exactly
once, tasks go to pairwise distinct workers, and the recorded per-task
costs sum to the model's objective value. -/
theorem alocacao_extraction_correct (x : Fin 4 → Fin 4 → ℚ)
    (hx : assignFeasible x) :
    ∃ w : Fin 4 → Fin 4,
      (∀ j, alocFunc x j = some (w j) ∧ x (w j) j = 1) ∧
      Function.Injective w ∧
      (∑ j, (custoAfetacao (w j) j : ℚ)) = assignCost x := by
  obtain ⟨w, hbij, hxw⟩ := assignFeasible_rep x hx
  have hdiag : ∀ j, x (w j) j = 1 := by
    intro j
    rw [hxw]
    simp [indicator]
  have hoff : ∀ i j, i ≠ w j → x i j = 0 := by
    intro i j hne
    rw [hxw]
    simp [indicator, hne]
  refine ⟨w, ?_, hbij.1, ?_⟩
  · intro j
    refine ⟨find?_unique (w j) (by simp [hdiag j]) ?_, hdiag j⟩
    intro b hb
    rw [decide_eq_true_iff] at hb
    by_contra hne
    rw [hoff b j hne] at hb
    norm_num at hb
  · rw [hxw, assignCost_indicator]
    simp [permCost]

/-- Witness for C8: the extraction applied to the optimal 0/1 matrix
`indicator wOpt`. -/
theorem alocacao_extraction_correct_witness :
    ∃ w : Fin 4 → Fin 4,
      (∀ j, alocFunc (indicator wOpt) j = some (w j) ∧ indicator wOpt (w j) j = 1) ∧
      Function.Injective w ∧
      (∑ j, (custoAfetacao (w j) j : ℚ)) = assignCost (indicator wOpt) :=
  alocacao_extraction_correct (indicator wOpt)
    (indicator_feasible wOpt wOpt_spec.1)

/-! ## Goal programming (metas.py lines 8–58, C4)

Supplies {A1:700, A2:700}, demands {200, 250, 250}, costs
A1→(2.0, 3.0, 2.5), A2→(5.0, 5.5, 6.0).  Goal 1:
`cost + d1_minus − d1_plus = 2500`; goal 2:
`sum(A2→CDs) + d2_minus − d2_plus = 400`.  Objective
`w1*d1_plus + w2*(d2_minus + d2_plus)` with `w1 = w2 = 1`. -/

/-- A candidate solution of the goal-programming model: shipments plus
the four deviation variables. -/
structure MetasSol where
  x : Fin 2 → Fin 3 → ℚ
  d1_minus : ℚ
  d1_plus : ℚ
  d2_minus : ℚ
  d2_plus : ℚ

/-- Unit costs of `metas.py`. -/
def custoMetas : Fin 2 → Fin 3 → ℚ :=
  ![![2, 3, 5/2], ![5, 11/2, 6]]

/-- Demands of `metas.py`. -/
def procuraMetas : Fin 3 → ℚ := ![200, 250, 250]

/-- The cost expression `cost_expr` of `metas.py`. -/
def costExpr (s : MetasSol) : ℚ := transCost custoMetas s.x

/-- Feasibility: nonnegative variables, the two goal equations, both
capacity constraints and the demand equalities. -/
def metasFeasible (s : MetasSol) : Prop :=
  (∀ i j, 0 ≤ s.x i j) ∧
  0 ≤ s.d1_minus ∧ 0 ≤ s.d1_plus ∧ 0 ≤ s.d2_minus ∧ 0 ≤ s.d2_plus ∧
  costExpr s + s.d1_minus - s.d1_plus = 2500 ∧
  (∑ j, s.x 1 j) + s.d2_minus - s.d2_plus = 400 ∧
  (∑ j, s.x 0 j) ≤ 700 ∧ (∑ j, s.x 1 j) ≤ 700 ∧
  (∀ j, (∑ i, s.x i j) = procuraMetas j)

/-- The weights `w1, w2 = 1, 1` of `metas.py`. -/
def wMetas : ℚ × ℚ := (1, 1)

/-- The objective `ObjMetas`: `w1*d1_plus + w2*(d2_minus + d2_plus)`. -/
def metasObj (s : MetasSol) : ℚ :=
  wMetas.1 * s.d1_plus + wMetas.2 * (s.d2_minus + s.d2_plus)

/-- Optimality for the goal-programming model. -/
def metasOptimal (s : MetasSol) : Prop :=
  metasFeasible s ∧ ∀ t, metasFeasible t → metasObj s ≤ metasObj t

/-- The transportation part of the model with the goal constraints
dropped: what "the minimum achievable cost ignoring the goals" ranges
over. -/
def metasTransportFeasible (x : Fin 2 → Fin 3 → ℚ) : Prop :=
  (∀ i j, 0 ≤ x i j) ∧
  (∑ j, x 0 j) ≤ 700 ∧ (∑ j, x 1 j) ≤ 700 ∧
  (∀ j, (∑ i, x i j) = procuraMetas j)

/-- Scalar form of goal-programming feasibility. -/
lemma metasFeasible_iff (s : MetasSol) :
    metasFeasible s ↔
      ((∀ i j, 0 ≤ s.x i j) ∧
       0 ≤ s.d1_minus ∧ 0 ≤ s.d1_plus ∧ 0 ≤ s.d2_minus ∧ 0 ≤ s.d2_plus ∧
       2 * s.x 0 0 + 3 * s.x 0 1 + 5/2 * s.x 0 2 +
         5 * s.x 1 0 + 11/2 * s.x 1 1 + 6 * s.x 1 2 +
         s.d1_minus - s.d1_plus = 2500 ∧
       s.x 1 0 + s.x 1 1 + s.x 1 2 + s.d2_minus - s.d2_plus = 400 ∧
       s.x 0 0 + s.x 0 1 + s.x 0 2 ≤ 700 ∧
       s.x 1 0 + s.x 1 1 + s.x 1 2 ≤ 700 ∧
       (s.x 0 0 + s.x 1 0 = 200 ∧ s.x 0 1 + s.x 1 1 = 250 ∧
        s.x 0 2 + s.x 1 2 = 250)) := by
  unfold metasFeasible costExpr
  rw [transCost_eq]
  constructor
  · rintro ⟨h0, h1, h2, h3, h4, hg1, hg2, hc1, hc2, hd⟩
    refine ⟨h0, h1, h2, h3, h4, by norm_num [custoMetas] at hg1 ⊢; linarith, ?_, ?_, ?_, ?_, ?_, ?_⟩
    · rw [Fin.sum_univ_three] at hg2; linarith
    · rw [Fin.sum_univ_three] at hc1; linarith
    · rw [Fin.sum_univ_three] at hc2; linarith
    · have := hd 0; rw [Fin.sum_univ_two] at this
      simpa [procuraMetas] using this
    · have := hd 1; rw [Fin.sum_univ_two] at this
      simpa [procuraMetas] using this
    · have := hd 2; rw [Fin.sum_univ_two] at this
      simpa [procuraMetas] using this
  · rintro ⟨h0, h1, h2, h3, h4, hg1, hg2, hc1, hc2, hd1, hd2, hd3⟩
    refine ⟨h0, h1, h2, h3, h4, by norm_num [custoMetas]; linarith, ?_, ?_, ?_, ?_⟩
    · rw [Fin.sum_univ_three]; linarith
    · rw [Fin.sum_univ_three]; linarith
    · rw [Fin.sum_univ_three]; linarith
    · intro j
      fin_cases j <;> rw [Fin.sum_univ_two] <;>
        simp [procuraMetas] <;> linarith

/-- The optimal goal-programming solution: A1 ships 500/3 to CD1 and 250
to CD3, A2 ships 100/3 to CD1 and 250 to CD2; cost is exactly 2500 and
A2's total falls 350/3 short of the 400 target. -/
def sStar : MetasSol :=
  { x := ![![500/3, 0, 250], ![100/3, 250, 0]]
    d1_minus := 0
    d1_plus := 0
    d2_minus := 350/3
    d2_plus := 0 }

/-- `sStar` is feasible. -/
lemma sStar_feasible : metasFeasible sStar := by
  rw [metasFeasible_iff]
  refine ⟨?_, by norm_num [sStar], by norm_num [sStar], by norm_num [sStar],
    by norm_num [sStar], by norm_num [sStar], by norm_num [sStar],
    by norm_num [sStar], by norm_num [sStar], by norm_num [sStar]⟩
  intro i j
  fin_cases i <;> fin_cases j <;> norm_num [sStar]

/-- `sStar` is optimal: every feasible point incurs penalty at least
350/3 (dual certificate λ₁ = −1/3, λ₂ = 1, demand duals
(2/3, 5/6, 5/6)). -/
lemma sStar_optimal : metasOptimal sStar := by
  refine ⟨sStar_feasible, ?_⟩
  intro t ht
  rw [metasFeasible_iff] at ht
  obtain ⟨h0, h1, h2, h3, h4, hg1, hg2, hc1, hc2, hd1, hd2, hd3⟩ := ht
  have h01 := h0 0 1
  have h12 := h0 1 2
  unfold metasObj wMetas
  norm_num [sStar]
  linarith

/-- C4: with weights `w1 = w2 = 1` and goal equation
`cost + d1_minus − d1_plus = 2500`, if some plan satisfying the
supply/demand constraints alone costs less than 2500, then every optimal
solution of the goal-programming model has `d1_plus = 0`: no penalty is
incurred on the cost target's exceed side. -/
theorem metas_optimal_no_cost_overrun
    (hmin : ∃ x, metasTransportFeasible x ∧ transCost custoMetas x < 2500)
    (s : MetasSol) (hs : metasOptimal s) : s.d1_plus = 0 := by
  have hub : metasObj s ≤ 350/3 := by
    have h := hs.2 sStar sStar_feasible
    have hobj : metasObj sStar = 350/3 := by norm_num [metasObj, wMetas, sStar]
    rwa [hobj] at h
  have hfeas := hs.1
  rw [metasFeasible_iff] at hfeas
  obtain ⟨h0, h1, h2, h3, h4, hg1, hg2, hc1, hc2, hd1, hd2, hd3⟩ := hfeas
  have h01 := h0 0 1
  have h12 := h0 1 2
  unfold metasObj wMetas at hub
  norm_num at hub
  linarith

/-- Witness for C4: shipping everything from A1 costs 1775 < 2500, and
the optimal solution `sStar` indeed has `d1_plus = 0`. -/
theorem metas_optimal_no_cost_overrun_witness : sStar.d1_plus = 0 :=
  metas_optimal_no_cost_overrun
    ⟨![![200, 250, 250], ![0, 0, 0]],
      ⟨fun i j => by fin_cases i <;> fin_cases j <;> norm_num,
       by norm_num [Fin.sum_univ_three],
       by norm_num [Fin.sum_univ_three],
       fun j => by fin_cases j <;> norm_num [Fin.sum_univ_two, procuraMetas]⟩,
      by rw [transCost_eq]; norm_num [custoMetas]⟩
    sStar sStar_optimal

/-! ## The sensitivity-sweep driver (C6)

All three scripts run the same loop shape: start from an empty result
list; for each swept value, build a fresh model from the base data
parametrized by that value alone, solve it, and append the resulting
metric.  `build` is the per-value model construction (e.g. `custo_atual`
in `transporte.py`), `metric` is solve-plus-readout, treated as a
function of the freshly built model only. -/

/-- The sweep loop: `foldl` with list append mirrors the imperative
`for cvar in vals: ... lista.append(...)`. -/
def sweepDriver {α β : Type} (build : α → β) (metric : β → ℚ)
    (vals : List α) : List (α × ℚ) :=
  vals.foldl (fun acc v => acc ++ [(v, metric (build v))]) []

/-- The sweep loop is a `map`: each output pair is a function of its own
input value alone. -/
lemma sweepDriver_eq_map {α β : Type} (build : α → β) (metric : β → ℚ)
    (vals : List α) :
    sweepDriver build metric vals
      = vals.map (fun v => (v, metric (build v))) := by
  suffices h : ∀ acc : List (α × ℚ),
      vals.foldl (fun acc v => acc ++ [(v, metric (build v))]) acc
        = acc ++ vals.map (fun v => (v, metric (build v))) by
    simpa [sweepDriver] using h []
  induction vals with
  | nil => intro acc; simp
  | cons v t ih =>
      intro acc
      simp [List.foldl_cons, ih]

/-- C6: the driver produces exactly one (freshly built) model per swept
value, in the input order; the first components of the results are the
inputs in order, one result per input; and the result at position `i`
depends only on the value at position `i` — two sweeps whose value lists
agree at position `i` produce the same result there, so no state leaks
between iterations. -/
theorem sweep_driver_fresh_ordered (α β : Type) (build : α → β)
    (metric : β → ℚ) (vals : List α) :
    sweepDriver build metric vals
        = vals.map (fun v => (v, metric (build v))) ∧
    (sweepDriver build metric vals).map Prod.fst = vals ∧
    (sweepDriver build metric vals).length = vals.length ∧
    (∀ (vals2 : List α) (i : ℕ) (h1 : i < vals.length)
        (h2 : i < vals2.length),
      vals.get ⟨i, h1⟩ = vals2.get ⟨i, h2⟩ →
      (sweepDriver build metric vals)[i]?
        = (sweepDriver build metric vals2)[i]?) := by
  refine ⟨sweepDriver_eq_map build metric vals, ?_, ?_, ?_⟩
  · rw [sweepDriver_eq_map]
    induction vals with
    | nil => rfl
    | cons v t ih => simpa using ih
  · rw [sweepDriver_eq_map]
    simp
  · intro vals2 i h1 h2 hv
    rw [sweepDriver_eq_map, sweepDriver_eq_map,
      List.getElem?_map, List.getElem?_map,
      List.getElem?_eq_getElem h1, List.getElem?_eq_getElem h2]
    simp only [List.get_eq_getElem] at hv
    rw [hv]

/-- Witness for C6: in the `transporte.py` sweep, iteration 0's result
coincides with the result of sweeping the singleton list `[3]` — the
other ten values play no role in it. -/
theorem sweep_driver_fresh_ordered_witness :
    (sweepDriver custo_atual (fun c => transCost c xStar) custos_variados)[0]?
      = (sweepDriver custo_atual (fun c => transCost c xStar) [3])[0]? :=
  (sweep_driver_fresh_ordered ℚ (Fin 2 → Fin 3 → ℚ) custo_atual
      (fun c => transCost c xStar) custos_variados).2.2.2
    [3] 0
    (by rw [custos_variados_eq]; norm_num)
    (by norm_num)
    (by simp [custos_variados_eq])

/-! ## Nonnegativity of every variable (C10)

Every `LpVariable` in the three scripts is created with lower bound 0:
explicitly (`lowBound=0`) for the continuous shipment and deviation
variables, and through the binary domain (`cat=LpBinary`, bounds [0,1])
for the assignment variables — including the sensitivity copies, which
rebuild the same constraint shapes.  Hence every feasible (so in
particular every returned) assignment is componentwise nonnegative. -/

/-- C10: in each of the three models — transportation, binary
assignment, and goal programming with its four deviation variables —
every variable of every feasible solution is nonnegative. -/
theorem all_variables_nonneg :
    (∀ x : Fin 2 → Fin 3 → ℚ, transporteData.feasible x → ∀ i j, 0 ≤ x i j) ∧
    (∀ x : Fin 4 → Fin 4 → ℚ, assignFeasible x → ∀ i j, 0 ≤ x i j) ∧
    (∀ s : MetasSol, metasFeasible s →
      (∀ i j, 0 ≤ s.x i j) ∧ 0 ≤ s.d1_minus ∧ 0 ≤ s.d1_plus ∧
      0 ≤ s.d2_minus ∧ 0 ≤ s.d2_plus) := by
  refine ⟨fun x hx => hx.1, ?_, ?_⟩
  · intro x hx i j
    rcases hx.1 i j with h | h <;> rw [h]
    exact zero_le_one
  · intro s hs
    obtain ⟨h0, h1, h2, h3, h4, _⟩ := hs
    exact ⟨h0, h1, h2, h3, h4⟩

/-- Witness for C10: instantiated at the concrete feasible solutions of
the three models. -/
theorem all_variables_nonneg_witness :
    (∀ i j, 0 ≤ xStar i j) ∧
    (∀ i j, (0 : ℚ) ≤ indicator wOpt i j) ∧
    0 ≤ sStar.d2_minus :=
  ⟨all_variables_nonneg.1 xStar xStar_feasible,
   all_variables_nonneg.2.1 (indicator wOpt)
     (indicator_feasible wOpt wOpt_spec.1),
   (all_variables_nonneg.2.2 sStar sStar_feasible).2.2.2.1⟩

end Otimizacao
